import Mathlib

/-!
Verification development for a Zulip chat bot (event parser, dispatcher,
deletion scheduler, anonymous-posting feature).  The Python source is
shallowly embedded: loosely-typed event records become a `PyVal` value
type, dictionaries become association lists with unique keys, exceptions
become `Except`, and the two stateful subsystems (the scheduler task
table and the per-sender pending table) become explicit state passing.
-/

/-- A dynamically-typed Python value, as far as the bot's event records
need: `None`, booleans, integers, strings, and string-keyed dicts. -/
inductive PyVal : Type where
  | pnone : PyVal
  | pbool : Bool → PyVal
  | pint : Int → PyVal
  | pstr : String → PyVal
  | pdict : List (String × PyVal) → PyVal

/-- First-match association-list lookup (dict keys are unique, so this is
Python dict lookup). -/
def assocFind? {κ α : Type} [DecidableEq κ] : List (κ × α) → κ → Option α
  | [], _ => none
  | (k, v) :: rest, key => if k = key then some v else assocFind? rest key

/-- Python `d.get(key, default)` on a dict represented as an entry list. -/
def dget (d : List (String × PyVal)) (k : String) (dflt : PyVal) : PyVal :=
  (assocFind? d k).getD dflt

/-- Does this value equal the Python string `s`? (`v == "s"`). -/
def isStr (v : PyVal) (s : String) : Bool :=
  match v with
  | PyVal.pstr t => t = s
  | _ => false

/-- Python truthiness of a value (`bool(v)`). -/
def truthy : PyVal → Bool
  | PyVal.pnone => false
  | PyVal.pbool b => b
  | PyVal.pint n => n ≠ 0
  | PyVal.pstr s => s ≠ ""
  | PyVal.pdict d => !d.isEmpty

/-- `core/models.py` `MessageEvent`.  Field values come from `dict.get`
calls with no type enforcement, so each field holds a `PyVal` (Python
stores whatever `get` returned, `None` included). -/
structure MessageEvent : Type where
  id : PyVal
  sender_id : PyVal
  sender_email : PyVal
  content : PyVal
  message_type : PyVal
  stream : PyVal
  topic : PyVal
  is_me_message : PyVal
  raw_event : PyVal

/-- `core/models.py` `parse_message_event`.  The input is a dict (the
function signature promises `Dict[str, Any]`); values inside it are
arbitrary.  `msg.get("type")` raises (here: `Except.error`) when the
`"message"` value is present but not itself a dict; every other path is
total. -/
def parse_message_event (event : List (String × PyVal)) :
    Except Unit (Option MessageEvent) :=
  if !(isStr (dget event "type" PyVal.pnone) "message") then
    Except.ok none
  else
    match dget event "message" (PyVal.pdict []) with
    | PyVal.pdict msg =>
      let msg_type := dget msg "type" PyVal.pnone
      if !(isStr msg_type "private" || isStr msg_type "stream") then
        Except.ok none
      else
        Except.ok (some {
          id := dget msg "id" PyVal.pnone
          sender_id := dget msg "sender_id" PyVal.pnone
          sender_email := dget msg "sender_email" PyVal.pnone
          content :=
            if truthy (dget msg "content" PyVal.pnone) then
              dget msg "content" PyVal.pnone
            else PyVal.pstr ""
          message_type := msg_type
          stream :=
            if isStr msg_type "stream" then dget msg "display_recipient" PyVal.pnone
            else PyVal.pnone
          topic :=
            if isStr msg_type "stream" then dget msg "subject" PyVal.pnone
            else PyVal.pnone
          is_me_message := dget msg "is_me_message" (PyVal.pbool false)
          raw_event := PyVal.pdict event })
    | _ => Except.error ()

/-- The `MessageEvent` record that `parse_message_event` builds from a
dict-shaped nested message (stated separately so proofs can name it). -/
def mkParsed (event msg : List (String × PyVal)) : MessageEvent where
  id := dget msg "id" PyVal.pnone
  sender_id := dget msg "sender_id" PyVal.pnone
  sender_email := dget msg "sender_email" PyVal.pnone
  content :=
    if truthy (dget msg "content" PyVal.pnone) then dget msg "content" PyVal.pnone
    else PyVal.pstr ""
  message_type := dget msg "type" PyVal.pnone
  stream :=
    if isStr (dget msg "type" PyVal.pnone) "stream" then
      dget msg "display_recipient" PyVal.pnone
    else PyVal.pnone
  topic :=
    if isStr (dget msg "type" PyVal.pnone) "stream" then
      dget msg "subject" PyVal.pnone
    else PyVal.pnone
  is_me_message := dget msg "is_me_message" (PyVal.pbool false)
  raw_event := PyVal.pdict event

/-- A registered feature handler (`core/dispatcher.py` `FeatureHandler`):
`handles` and `handle` may raise, modelled as `Except`. -/
structure FeatureHandlerM : Type where
  handles : MessageEvent → Except Unit Bool
  handle : MessageEvent → Except Unit Unit

/-- Outcome recorded for one handler during one dispatch. -/
inductive HOutcome : Type where
  | notApplicable : HOutcome
  | handled : HOutcome
  | errorLogged : HOutcome
deriving DecidableEq

/-- The body of the dispatch loop before the `try`: `if await
feature.handles(msg_event): await feature.handle(msg_event)`, with any
raise propagating out as `Except.error`. -/
def handlerStep (f : FeatureHandlerM) (ev : MessageEvent) : Except Unit HOutcome :=
  match f.handles ev with
  | Except.error e => Except.error e
  | Except.ok false => Except.ok HOutcome.notApplicable
  | Except.ok true =>
    match f.handle ev with
    | Except.error e => Except.error e
    | Except.ok () => Except.ok HOutcome.handled

/-- One loop iteration of `Dispatcher.dispatch_event`: the
`try/except Exception` around the body catches any raise and logs it. -/
def runHandler (f : FeatureHandlerM) (ev : MessageEvent) : HOutcome :=
  match handlerStep f ev with
  | Except.error _ => HOutcome.errorLogged
  | Except.ok o => o

/-- `Dispatcher.dispatch_event`: parse, return on no event, then give
every registered feature its guarded invocation in registration order.
`parse_message_event` itself is awaited outside any `try`, so a parse
raise (and only that) propagates. -/
def dispatch_event (features : List FeatureHandlerM)
    (event_dict : List (String × PyVal)) : Except Unit (List HOutcome) :=
  match parse_message_event event_dict with
  | Except.error e => Except.error e
  | Except.ok none => Except.ok []
  | Except.ok (some ev) => Except.ok (features.map (fun f => runHandler f ev))

/-- Python dict assignment `d[k] = v`: replaces the entry in place when
the key is present, appends otherwise. -/
def dictInsert {κ α : Type} [DecidableEq κ] : List (κ × α) → κ → α → List (κ × α)
  | [], k, v => [(k, v)]
  | (k0, v0) :: rest, k, v =>
    if k0 = k then (k, v) :: rest else (k0, v0) :: dictInsert rest k v

/-- Python `d.pop(k, None)`: removes the entry for `k`, if any. -/
def dictPop {κ α : Type} [DecidableEq κ] : List (κ × α) → κ → List (κ × α)
  | [], _ => []
  | (k0, v0) :: rest, k =>
    if k0 = k then rest else (k0, v0) :: dictPop rest k

/-- `utils/scheduling.py` `ScheduledDeletion`: only a message id and a
due time (datetimes modelled as integer timestamps), no content. -/
structure ScheduledDeletion : Type where
  message_id : Int
  delete_at : Int
deriving DecidableEq

/-- `DeletionScheduler.schedule_deletion`: computes `delete_at = now +
delete_after_minutes` and assigns `self._tasks[message_id] = ...`
(synchronously, without acquiring the lock). -/
def schedule_deletion (tasks : List (Int × ScheduledDeletion))
    (message_id : Int) (delete_after_minutes : Int) (now : Int) :
    List (Int × ScheduledDeletion) :=
  dictInsert tasks message_id
    { message_id := message_id, delete_at := now + delete_after_minutes }

/-- `DeletionScheduler._run_once`: snapshot the due ids (under the
lock), then for each due id call `delete_message` (outside the lock;
`delOk` is the client's success oracle, used only for logging) and pop
the entry (under the lock) whether or not the delete succeeded.
Returns the new table and the issued delete calls with their results. -/
def run_once (tasks : List (Int × ScheduledDeletion)) (now : Int)
    (delOk : Int → Bool) :
    List (Int × ScheduledDeletion) × List (Int × Bool) :=
  let to_delete :=
    (tasks.filter (fun p => decide (p.2.delete_at ≤ now))).map (fun p => p.1)
  (to_delete.foldl (fun t m => dictPop t m) tasks,
   to_delete.map (fun m => (m, delOk m)))

/-- Scheduler states reachable from the empty task table by any sequence
of `schedule_deletion` calls and sweep executions. -/
inductive SchedReach : List (Int × ScheduledDeletion) → Prop where
  | init : SchedReach []
  | sched : ∀ t m d now, SchedReach t → SchedReach (schedule_deletion t m d now)
  | sweep : ∀ t now delOk, SchedReach t → SchedReach ((run_once t now delOk).1)

/-- An action observable from `DeletionScheduler.run`: one `_run_once`
sweep, or one `trio.sleep` of the given duration. -/
inductive SchedAction : Type where
  | sweep : SchedAction
  | sleep : Nat → SchedAction
deriving DecidableEq

/-- The action trace of the first `k` iterations of
`DeletionScheduler.run`: each iteration awaits `_run_once()` (wrapped in
`try/except`) and then `trio.sleep(60)`. -/
def runActions : Nat → List SchedAction
  | 0 => []
  | Nat.succ k => SchedAction.sweep :: SchedAction.sleep 60 :: runActions k

/-- One task-table or network operation of the scheduler, tagged with
whether the code performs it while holding `self._lock`. -/
inductive LockedOpKind : Type where
  | tableRead : LockedOpKind
  | tableWrite : LockedOpKind
  | deleteCall : Int → LockedOpKind
deriving DecidableEq

structure LockedOp : Type where
  kind : LockedOpKind
  underLock : Bool
deriving DecidableEq

/-- Is this operation an access (read or mutation) of the task table? -/
def isTableOp : LockedOpKind → Bool
  | LockedOpKind.tableRead => true
  | LockedOpKind.tableWrite => true
  | LockedOpKind.deleteCall _ => false

/-- The operations `DeletionScheduler.schedule_deletion` performs: a
single synchronous table write (`self._tasks[message_id] = ...`) with no
`async with self._lock` around it. -/
def schedule_deletion_ops : List LockedOp :=
  [LockedOp.mk LockedOpKind.tableWrite false]

/-- The operations `DeletionScheduler._run_once` performs for a sweep
whose due snapshot is `to_delete`: one read of the table under the lock,
then per due id a `delete_message` call outside the lock followed by a
`pop` under the lock. -/
def run_once_ops (to_delete : List Int) : List LockedOp :=
  LockedOp.mk LockedOpKind.tableRead true ::
    to_delete.flatMap (fun m =>
      [LockedOp.mk (LockedOpKind.deleteCall m) false,
       LockedOp.mk LockedOpKind.tableWrite true])

/-- Leading-whitespace strip on a character list (one side of Python
`str.strip()`). -/
def pyStripLeft : List Char → List Char
  | [] => []
  | c :: cs => if c.isWhitespace then pyStripLeft cs else c :: cs

/-- Python `s.strip()`: drop whitespace from both ends. -/
def pyStrip (s : String) : String :=
  String.mk ((pyStripLeft (pyStripLeft s.data).reverse).reverse)

/-- Python `s.lower()`. -/
def pyLower (s : String) : String :=
  String.mk (s.data.map Char.toLower)

/-- `features/anonymous_posting.py` `PendingAnon`. -/
structure PendingAnon : Type where
  original_message_id : Int
  original_content : String
deriving DecidableEq

/-- An outward call made by `AnonymousPostingFeature.handle`. -/
inductive AnonEffect : Type where
  | sendStreamMessage : String → String → String → AnonEffect
  | scheduleDeletion : Int → Int → AnonEffect
  | sendPrivateMessage : Int → String → AnonEffect
deriving DecidableEq

/-- `AnonymousPostingFeature.handle` over the event fields it uses
(`sender_id`, `id`, `content`) and the configuration values read at the
top of the method.  `send_result` is the id returned by
`send_stream_message` (None on failure).  Returns the new `_pending`
table and the ordered outward calls. -/
def anonHandle (target_stream target_topic : String)
    (delete_after_minutes : Int) (send_result : Option Int)
    (pending : List (Int × PendingAnon))
    (sender_id event_id : Int) (content : String) :
    List (Int × PendingAnon) × List AnonEffect :=
  let normalized := pyLower (pyStrip content)
  match assocFind? pending sender_id with
  | some p =>
    let pending1 := dictPop pending sender_id
    if normalized = "send" then
      (pending1,
        AnonEffect.sendStreamMessage target_stream target_topic
            ("Anonymous message:\n\n" ++ p.original_content) ::
          ((match send_result with
            | some anon_msg_id =>
              [AnonEffect.scheduleDeletion anon_msg_id delete_after_minutes]
            | none => []) ++
           [AnonEffect.scheduleDeletion p.original_message_id 1,
            AnonEffect.scheduleDeletion event_id 1,
            AnonEffect.sendPrivateMessage sender_id
              "Your message has been posted anonymously."]))
    else if normalized = "cancel" then
      (pending1,
        [AnonEffect.scheduleDeletion p.original_message_id 1,
         AnonEffect.scheduleDeletion event_id 1,
         AnonEffect.sendPrivateMessage sender_id
           "Okay, your message was not posted."])
    else
      (pending1,
        [AnonEffect.sendPrivateMessage sender_id
          "Unknown input. Please start over by sending your message again."])
  | none =>
    let pending1 := dictInsert pending sender_id
      (PendingAnon.mk event_id content)
    let preview0 := pyStrip content
    let preview :=
      if preview0.length > 500 then
        String.mk (preview0.data.take 500) ++ " ..."
      else preview0
    (pending1,
      [AnonEffect.sendPrivateMessage sender_id
        ("You wrote:\n\n```text\n" ++ preview ++ "\n```\n\n" ++
         "Reply with `SEND` to post anonymously, or `CANCEL` to discard.")])

theorem isStr_iff (v : PyVal) (s : String) :
    isStr v s = true ↔ v = PyVal.pstr s := by
  cases v <;> simp [isStr]

theorem parse_eq_of_pdict (event msg : List (String × PyVal))
    (ht : isStr (dget event "type" PyVal.pnone) "message" = true)
    (hm : dget event "message" (PyVal.pdict []) = PyVal.pdict msg) :
    parse_message_event event =
      (if !(isStr (dget msg "type" PyVal.pnone) "private" ||
            isStr (dget msg "type" PyVal.pnone) "stream") then
        Except.ok none
      else Except.ok (some (mkParsed event msg))) := by
  unfold parse_message_event
  rw [ht, hm]
  rfl

/-- C4: the claim says `parse_message_event` never raises on any input
record, including one whose nested "message" field is present but not a
map.  The code contradicts its own docstring ("None otherwise") there:
on `{"type": "message", "message": 5}` the call `msg.get("type")` is an
attribute access on an `int` and raises, modelled here as
`Except.error`. -/
theorem parse_raises_on_nondict_message :
    parse_message_event
      [("type", PyVal.pstr "message"), ("message", PyVal.pint 5)] =
    Except.error () := by
  rfl

/-- C6: a `MessageEvent` is produced only when the outer "type" is
"message" and the nested message "type" is "private" or "stream"; when
the outer type is not "message", or the nested message is a map whose
"type" is neither recognized kind, the parser returns `none`. -/
theorem parse_only_recognized_kinds (event : List (String × PyVal)) :
    (isStr (dget event "type" PyVal.pnone) "message" = false →
      parse_message_event event = Except.ok none) ∧
    (∀ msg, dget event "message" (PyVal.pdict []) = PyVal.pdict msg →
      isStr (dget msg "type" PyVal.pnone) "private" = false →
      isStr (dget msg "type" PyVal.pnone) "stream" = false →
      parse_message_event event = Except.ok none) ∧
    (∀ ev, parse_message_event event = Except.ok (some ev) →
      isStr (dget event "type" PyVal.pnone) "message" = true ∧
      (ev.message_type = PyVal.pstr "private" ∨
        ev.message_type = PyVal.pstr "stream")) := by
  refine ⟨fun h => by simp [parse_message_event, h], ?_, ?_⟩
  · intro msg hmsg h1 h2
    unfold parse_message_event
    cases ht : isStr (dget event "type" PyVal.pnone) "message"
    · simp [ht]
    · simp [ht, hmsg, h1, h2]
  · intro ev hev
    cases ht : isStr (dget event "type" PyVal.pnone) "message"
    · have h0 : parse_message_event event = Except.ok none := by
        simp [parse_message_event, ht]
      rw [h0] at hev
      simp at hev
    · refine ⟨rfl, ?_⟩
      cases hmv : dget event "message" (PyVal.pdict [])
      case pdict msg =>
        rw [parse_eq_of_pdict event msg ht hmv] at hev
        cases hp : isStr (dget msg "type" PyVal.pnone) "private"
        · cases hs : isStr (dget msg "type" PyVal.pnone) "stream"
          · rw [hp, hs] at hev
            have hF : Except.ok (none : Option MessageEvent) =
                Except.ok (some ev) := hev
            simp at hF
          · right
            rw [hp, hs] at hev
            have hev2 : Except.ok (some (mkParsed event msg)) =
                (Except.ok (some ev) : Except Unit (Option MessageEvent)) := hev
            injection hev2 with h2
            injection h2 with h2
            rw [← h2]
            exact (isStr_iff _ _).mp hs
        · left
          rw [hp] at hev
          have hev2 : Except.ok (some (mkParsed event msg)) =
              (Except.ok (some ev) : Except Unit (Option MessageEvent)) := hev
          injection hev2 with h2
          injection h2 with h2
          rw [← h2]
          exact (isStr_iff _ _).mp hp
      all_goals {
        have h0 : parse_message_event event = Except.error () := by
          unfold parse_message_event
          rw [ht, hmv]
          rfl
        rw [h0] at hev
        exact absurd hev (by simp) }

/-- C6 witness: a heartbeat event is rejected. -/
theorem parse_only_recognized_kinds_witness :
    parse_message_event [("type", PyVal.pstr "heartbeat")] = Except.ok none :=
  (parse_only_recognized_kinds [("type", PyVal.pstr "heartbeat")]).1 rfl

/-- C9: on a well-formed "message"/"private"-or-"stream" record, absent
`id`, `sender_id`, `sender_email` become `None` (no rejection),
`is_me_message` defaults to `False`, and an absent-or-falsy `content`
becomes the empty string. -/
theorem parse_defaults (event : List (String × PyVal))
    (msg : List (String × PyVal))
    (ht : isStr (dget event "type" PyVal.pnone) "message" = true)
    (hm : dget event "message" (PyVal.pdict []) = PyVal.pdict msg)
    (hrec : isStr (dget msg "type" PyVal.pnone) "private" = true ∨
      isStr (dget msg "type" PyVal.pnone) "stream" = true)
    (hid : assocFind? msg "id" = none)
    (hsid : assocFind? msg "sender_id" = none)
    (hsem : assocFind? msg "sender_email" = none)
    (hime : assocFind? msg "is_me_message" = none)
    (hc : truthy (dget msg "content" PyVal.pnone) = false) :
    ∃ ev, parse_message_event event = Except.ok (some ev) ∧
      ev.id = PyVal.pnone ∧ ev.sender_id = PyVal.pnone ∧
      ev.sender_email = PyVal.pnone ∧
      ev.is_me_message = PyVal.pbool false ∧
      ev.content = PyVal.pstr "" := by
  refine ⟨mkParsed event msg, ?_, ?_, ?_, ?_, ?_, ?_⟩
  · rw [parse_eq_of_pdict event msg ht hm]
    cases hrec with
    | inl hp =>
      rw [hp]
      rfl
    | inr hs =>
      rw [hs]
      cases isStr (dget msg "type" PyVal.pnone) "private" <;> rfl
  · simp [mkParsed, dget, hid]
  · simp [mkParsed, dget, hsid]
  · simp [mkParsed, dget, hsem]
  · simp [mkParsed, dget, hime]
  · simp [mkParsed, hc]

/-- C1: when an event parses, dispatch returns normally (never propagates
a handler's raise), and every registered handler — in registration order,
each handler of the list at its own position — receives its guarded
`handles`/`handle` invocation on that same event, with its outcome
depending only on its own behaviour (a raise is caught at that handler's
boundary and recorded as logged). -/
theorem dispatch_isolates_handler_failures (features : List FeatureHandlerM)
    (event_dict : List (String × PyVal)) (ev : MessageEvent)
    (h : parse_message_event event_dict = Except.ok (some ev)) :
    ∃ outs : List HOutcome,
      dispatch_event features event_dict = Except.ok outs ∧
      outs.length = features.length ∧
      ∀ i, outs.get? i = (features.get? i).map (fun f => runHandler f ev) := by
  refine ⟨features.map (fun f => runHandler f ev), ?_, by simp, ?_⟩
  · unfold dispatch_event
    rw [h]
  · intro i
    simp

/-- C1 witness: three handlers all applicable, the second raising inside
`handle`; dispatch still returns all three outcomes, with the first and
third handled and the second's failure logged. -/
theorem dispatch_isolates_handler_failures_witness :
    ∃ outs : List HOutcome,
      dispatch_event
        [⟨fun _ => Except.ok true, fun _ => Except.ok ()⟩,
         ⟨fun _ => Except.ok true, fun _ => Except.error ()⟩,
         ⟨fun _ => Except.ok true, fun _ => Except.ok ()⟩]
        [("type", PyVal.pstr "message"),
         ("message", PyVal.pdict [("type", PyVal.pstr "private")])] =
      Except.ok outs ∧
      outs.length = 3 ∧
      outs = [HOutcome.handled, HOutcome.errorLogged, HOutcome.handled] := by
  obtain ⟨outs, h1, h2, -⟩ :=
    dispatch_isolates_handler_failures
      [⟨fun _ => Except.ok true, fun _ => Except.ok ()⟩,
       ⟨fun _ => Except.ok true, fun _ => Except.error ()⟩,
       ⟨fun _ => Except.ok true, fun _ => Except.ok ()⟩]
      [("type", PyVal.pstr "message"),
       ("message", PyVal.pdict [("type", PyVal.pstr "private")])]
      (mkParsed
        [("type", PyVal.pstr "message"),
         ("message", PyVal.pdict [("type", PyVal.pstr "private")])]
        [("type", PyVal.pstr "private")])
      rfl
  have e2 : Except.ok outs =
      (Except.ok [HOutcome.handled, HOutcome.errorLogged, HOutcome.handled] :
        Except Unit (List HOutcome)) := by
    rw [← h1]
    rfl
  injection e2 with e2
  subst e2
  exact ⟨_, h1, rfl, rfl⟩

theorem assocFind?_eq_none_of_not_mem {κ α : Type} [DecidableEq κ]
    (t : List (κ × α)) (k : κ) (h : k ∉ t.map Prod.fst) :
    assocFind? t k = none := by
  induction t with
  | nil => rfl
  | cons a rest ih =>
    simp only [List.map_cons, List.mem_cons] at h
    push_neg at h
    simp only [assocFind?, ih h.2]
    rw [if_neg (fun e => h.1 e.symm)]

theorem assocFind?_dictPop_self {κ α : Type} [DecidableEq κ]
    (t : List (κ × α)) (k : κ) (h : (t.map Prod.fst).Nodup) :
    assocFind? (dictPop t k) k = none := by
  induction t with
  | nil => rfl
  | cons a rest ih =>
    obtain ⟨a1, a2⟩ := a
    simp only [List.map_cons, List.nodup_cons] at h
    by_cases hk : a1 = k
    · have hd : dictPop ((a1, a2) :: rest) k = rest := by
        simp [dictPop, hk]
      rw [hd]
      exact assocFind?_eq_none_of_not_mem rest k (hk ▸ h.1)
    · have hd : dictPop ((a1, a2) :: rest) k = (a1, a2) :: dictPop rest k := by
        simp [dictPop, hk]
      rw [hd]
      simp only [assocFind?, if_neg hk]
      exact ih h.2

theorem dictPop_eq_filter {κ α : Type} [DecidableEq κ]
    (t : List (κ × α)) (k : κ) (h : (t.map Prod.fst).Nodup) :
    dictPop t k = t.filter (fun p => decide (p.1 ≠ k)) := by
  induction t with
  | nil => rfl
  | cons a rest ih =>
    obtain ⟨a1, a2⟩ := a
    simp only [List.map_cons, List.nodup_cons] at h
    by_cases hk : a1 = k
    · subst hk
      have hL : dictPop ((a1, a2) :: rest) a1 = rest := by
        simp [dictPop]
      have hR : List.filter (fun p => decide (p.1 ≠ a1)) ((a1, a2) :: rest) =
          List.filter (fun p => decide (p.1 ≠ a1)) rest := by
        simp [List.filter_cons]
      rw [hL, hR]
      symm
      rw [List.filter_eq_self]
      intro p hp
      simp only [decide_eq_true_eq]
      intro e
      exact h.1 (e ▸ List.mem_map_of_mem Prod.fst hp)
    · have hL : dictPop ((a1, a2) :: rest) k = (a1, a2) :: dictPop rest k := by
        simp [dictPop, hk]
      have hR : List.filter (fun p => decide (p.1 ≠ k)) ((a1, a2) :: rest) =
          (a1, a2) :: List.filter (fun p => decide (p.1 ≠ k)) rest := by
        simp [List.filter_cons, hk]
      rw [hL, hR, ih h.2]

theorem keys_nodup_of_filter {κ α : Type} [DecidableEq κ]
    (t : List (κ × α)) (f : κ × α → Bool) (h : (t.map Prod.fst).Nodup) :
    ((t.filter f).map Prod.fst).Nodup :=
  h.sublist (List.Sublist.map Prod.fst (List.filter_sublist (p := f) t))

theorem foldl_dictPop_eq_filter {κ α : Type} [DecidableEq κ]
    (ks : List κ) (t : List (κ × α)) (h : (t.map Prod.fst).Nodup) :
    ks.foldl (fun acc m => dictPop acc m) t =
      t.filter (fun p => decide (p.1 ∉ ks)) := by
  induction ks generalizing t with
  | nil => simp
  | cons k ks ih =>
    have hpop : dictPop t k = t.filter (fun p => decide (p.1 ≠ k)) :=
      dictPop_eq_filter t k h
    have step : (k :: ks).foldl (fun acc m => dictPop acc m) t =
        ks.foldl (fun acc m => dictPop acc m) (dictPop t k) := rfl
    rw [step, hpop, ih _ (keys_nodup_of_filter t _ h), List.filter_filter]
    apply List.filter_congr
    intro p _
    by_cases h1 : p.1 = k <;> by_cases h2 : p.1 ∈ ks <;> simp [h1, h2]

theorem dictInsert_dictInsert {κ α : Type} [DecidableEq κ]
    (t : List (κ × α)) (k : κ) (v1 v2 : α) :
    dictInsert (dictInsert t k v1) k v2 = dictInsert t k v2 := by
  induction t with
  | nil => simp [dictInsert]
  | cons a rest ih =>
    obtain ⟨a1, a2⟩ := a
    by_cases hk : a1 = k
    · simp [dictInsert, hk]
    · simp [dictInsert, hk, ih]

theorem assocFind?_dictInsert_self {κ α : Type} [DecidableEq κ]
    (t : List (κ × α)) (k : κ) (v : α) :
    assocFind? (dictInsert t k v) k = some v := by
  induction t with
  | nil => simp [dictInsert, assocFind?]
  | cons a rest ih =>
    obtain ⟨a1, a2⟩ := a
    by_cases hk : a1 = k
    · simp [dictInsert, hk, assocFind?]
    · simp [dictInsert, hk, assocFind?, ih]

theorem mem_keys_dictInsert {κ α : Type} [DecidableEq κ]
    (t : List (κ × α)) (k : κ) (v : α) (x : κ) :
    x ∈ (dictInsert t k v).map Prod.fst ↔
      x ∈ t.map Prod.fst ∨ x = k := by
  induction t with
  | nil => simp [dictInsert]
  | cons a rest ih =>
    obtain ⟨a1, a2⟩ := a
    by_cases hk : a1 = k
    · subst hk
      have hins : dictInsert ((a1, a2) :: rest) a1 v = (a1, v) :: rest := by
        simp [dictInsert]
      rw [hins]
      simp only [List.map_cons, List.mem_cons]
      tauto
    · have hins : dictInsert ((a1, a2) :: rest) k v =
          (a1, a2) :: dictInsert rest k v := by
        simp [dictInsert, hk]
      rw [hins]
      simp only [List.map_cons, List.mem_cons, ih]
      tauto

theorem keys_nodup_dictInsert {κ α : Type} [DecidableEq κ]
    (t : List (κ × α)) (k : κ) (v : α) (h : (t.map Prod.fst).Nodup) :
    ((dictInsert t k v).map Prod.fst).Nodup := by
  induction t with
  | nil => simp [dictInsert]
  | cons a rest ih =>
    obtain ⟨a1, a2⟩ := a
    simp only [List.map_cons, List.nodup_cons] at h
    by_cases hk : a1 = k
    · subst hk
      have hins : dictInsert ((a1, a2) :: rest) a1 v = (a1, v) :: rest := by
        simp [dictInsert]
      rw [hins]
      simp only [List.map_cons, List.nodup_cons]
      exact ⟨h.1, h.2⟩
    · have hins : dictInsert ((a1, a2) :: rest) k v =
          (a1, a2) :: dictInsert rest k v := by
        simp [dictInsert, hk]
      rw [hins]
      simp only [List.map_cons, List.nodup_cons]
      refine ⟨?_, ih h.2⟩
      rw [mem_keys_dictInsert]
      rintro (hx | rfl)
      · exact h.1 hx
      · exact hk rfl

/-- C3: re-scheduling the same message id wholly overwrites the earlier
entry: after `schedule(m, d1)` then `schedule(m, d2)` the table equals
the table after the second call alone, the entry for `m` is due at the
second call's `now + d2`, and `m` has exactly one pending entry. -/
theorem schedule_last_write_wins (t : List (Int × ScheduledDeletion))
    (m d1 d2 n1 n2 : Int) (h : (t.map Prod.fst).Nodup) :
    schedule_deletion (schedule_deletion t m d1 n1) m d2 n2 =
      schedule_deletion t m d2 n2 ∧
    assocFind? (schedule_deletion (schedule_deletion t m d1 n1) m d2 n2) m =
      some { message_id := m, delete_at := n2 + d2 } ∧
    ((schedule_deletion (schedule_deletion t m d1 n1) m d2 n2).map
      Prod.fst).count m = 1 := by
  have h12 : schedule_deletion (schedule_deletion t m d1 n1) m d2 n2 =
      schedule_deletion t m d2 n2 := dictInsert_dictInsert t m _ _
  refine ⟨h12, ?_, ?_⟩
  · rw [h12]
    exact assocFind?_dictInsert_self t m _
  · rw [h12]
    exact List.count_eq_one_of_mem (keys_nodup_dictInsert t m _ h)
      ((mem_keys_dictInsert t m _ m).mpr (Or.inr rfl))

/-- C3 witness: scheduling message 42 for 5 minutes then 1 minute. -/
theorem schedule_last_write_wins_witness :
    schedule_deletion (schedule_deletion [] 42 5 0) 42 1 0 =
      schedule_deletion [] 42 1 0 ∧
    assocFind? (schedule_deletion (schedule_deletion [] 42 5 0) 42 1 0) 42 =
      some { message_id := 42, delete_at := 1 } ∧
    ((schedule_deletion (schedule_deletion [] 42 5 0) 42 1 0).map
      Prod.fst).count 42 = 1 :=
  schedule_last_write_wins [] 42 5 1 0 0 (by decide)

theorem nodup_keys_entry_inj {κ α : Type} [DecidableEq κ]
    (t : List (κ × α)) (h : (t.map Prod.fst).Nodup) {p q : κ × α}
    (hp : p ∈ t) (hq : q ∈ t) (hk : p.1 = q.1) : p = q := by
  induction t with
  | nil => cases hp
  | cons a rest ih =>
    simp only [List.map_cons, List.nodup_cons] at h
    rcases List.mem_cons.mp hp with rfl | hp2
    · rcases List.mem_cons.mp hq with rfl | hq2
      · rfl
      · have hm : q.1 ∈ rest.map Prod.fst := List.mem_map_of_mem Prod.fst hq2
        rw [← hk] at hm
        exact absurd hm h.1
    · rcases List.mem_cons.mp hq with rfl | hq2
      · have hm : p.1 ∈ rest.map Prod.fst := List.mem_map_of_mem Prod.fst hp2
        rw [hk] at hm
        exact absurd hm h.1
      · exact ih h.2 hp2 hq2

theorem run_once_removes_due (tasks : List (Int × ScheduledDeletion))
    (now : Int) (delOk : Int → Bool) (h : (tasks.map Prod.fst).Nodup) :
    (run_once tasks now delOk).1 =
      tasks.filter (fun p => decide (¬ p.2.delete_at ≤ now)) := by
  show ((tasks.filter (fun p => decide (p.2.delete_at ≤ now))).map
      (fun p => p.1)).foldl (fun t m => dictPop t m) tasks =
    tasks.filter (fun p => decide (¬ p.2.delete_at ≤ now))
  rw [foldl_dictPop_eq_filter _ _ h]
  apply List.filter_congr
  intro p hp
  rw [decide_eq_decide]
  constructor
  · intro hnm hdue
    exact hnm (List.mem_map_of_mem _
      (List.mem_filter.mpr ⟨hp, by simpa using hdue⟩))
  · intro hnd hm
    rcases List.mem_map.mp hm with ⟨q, hq, hqk⟩
    rcases List.mem_filter.mp hq with ⟨hqt, hqdue⟩
    have := nodup_keys_entry_inj tasks h hqt hp hqk
    subst this
    exact hnd (by simpa using hqdue)

/-- C2: one sweep issues exactly one delete call per due entry (the call
list's ids are precisely the due keys, each once), removes every due
entry from the table for every possible delete outcome (no retry), keeps
every not-yet-due entry, and a second sweep at the same time issues no
further delete calls. -/
theorem run_once_correct (tasks : List (Int × ScheduledDeletion)) (now : Int)
    (delOk : Int → Bool) (h : (tasks.map Prod.fst).Nodup) :
    ((run_once tasks now delOk).2.map Prod.fst) =
      ((tasks.filter (fun p => decide (p.2.delete_at ≤ now))).map Prod.fst) ∧
    ((run_once tasks now delOk).2.map Prod.fst).Nodup ∧
    (run_once tasks now delOk).1 =
      tasks.filter (fun p => decide (¬ p.2.delete_at ≤ now)) ∧
    ∀ delOk2 : Int → Bool,
      (run_once (run_once tasks now delOk).1 now delOk2).2 = [] := by
  have hcalls : ((run_once tasks now delOk).2.map Prod.fst) =
      ((tasks.filter (fun p => decide (p.2.delete_at ≤ now))).map Prod.fst) := by
    show (((tasks.filter (fun p => decide (p.2.delete_at ≤ now))).map
        (fun p => p.1)).map (fun m => (m, delOk m))).map Prod.fst = _
    rw [List.map_map, List.map_map]
    rfl
  have htab := run_once_removes_due tasks now delOk h
  refine ⟨hcalls, ?_, htab, ?_⟩
  · rw [hcalls]
    exact keys_nodup_of_filter tasks _ h
  · intro delOk2
    rw [htab]
    have hnil : (tasks.filter
        (fun p => decide (¬ p.2.delete_at ≤ now))).filter
        (fun p => decide (p.2.delete_at ≤ now)) = [] := by
      rw [List.filter_filter, List.filter_eq_nil]
      intro a _
      simp only [Bool.and_eq_true, decide_eq_true_eq]
      rintro ⟨h1, h2⟩
      exact h2 h1
    simp [run_once, hnil]

/-- C2 witness: with entries due at 5 and 100 and the clock at 10, one
sweep deletes message 1 (even though the delete fails), keeps message 2,
and a second sweep issues no calls. -/
theorem run_once_correct_witness :
    ((run_once [(1, ⟨1, 5⟩), (2, ⟨2, 100⟩)] 10 (fun _ => false)).2.map
      Prod.fst) = [1] ∧
    (run_once [(1, ⟨1, 5⟩), (2, ⟨2, 100⟩)] 10 (fun _ => false)).1 =
      [(2, ⟨2, 100⟩)] ∧
    (run_once (run_once [(1, ⟨1, 5⟩), (2, ⟨2, 100⟩)] 10
      (fun _ => false)).1 10 (fun _ => true)).2 = [] := by
  have h := run_once_correct [(1, ⟨1, 5⟩), (2, ⟨2, 100⟩)] 10
    (fun _ => false) (by decide)
  exact ⟨h.1.trans (by rfl), (h.2.2.1).trans (by rfl), h.2.2.2 (fun _ => true)⟩

theorem mem_dictInsert {κ α : Type} [DecidableEq κ]
    (t : List (κ × α)) (k : κ) (v : α) (p : κ × α)
    (hp : p ∈ dictInsert t k v) : p ∈ t ∨ p = (k, v) := by
  induction t with
  | nil =>
    simp [dictInsert] at hp
    exact Or.inr hp
  | cons a rest ih =>
    obtain ⟨a1, a2⟩ := a
    by_cases hk : a1 = k
    · rw [show dictInsert ((a1, a2) :: rest) k v = (k, v) :: rest by
        simp [dictInsert, hk]] at hp
      rcases List.mem_cons.mp hp with rfl | hp2
      · exact Or.inr rfl
      · exact Or.inl (List.mem_cons_of_mem _ hp2)
    · rw [show dictInsert ((a1, a2) :: rest) k v =
          (a1, a2) :: dictInsert rest k v by simp [dictInsert, hk]] at hp
      rcases List.mem_cons.mp hp with rfl | hp2
      · exact Or.inl (List.mem_cons_self _ _)
      · rcases ih hp2 with hin | rfl
        · exact Or.inl (List.mem_cons_of_mem _ hin)
        · exact Or.inr rfl

theorem mem_dictPop {κ α : Type} [DecidableEq κ]
    (t : List (κ × α)) (k : κ) (p : κ × α) (hp : p ∈ dictPop t k) :
    p ∈ t := by
  induction t with
  | nil => cases hp
  | cons a rest ih =>
    obtain ⟨a1, a2⟩ := a
    by_cases hk : a1 = k
    · rw [show dictPop ((a1, a2) :: rest) k = rest by simp [dictPop, hk]] at hp
      exact List.mem_cons_of_mem _ hp
    · rw [show dictPop ((a1, a2) :: rest) k = (a1, a2) :: dictPop rest k by
        simp [dictPop, hk]] at hp
      rcases List.mem_cons.mp hp with rfl | hp2
      · exact List.mem_cons_self _ _
      · exact List.mem_cons_of_mem _ (ih hp2)

theorem mem_foldl_dictPop {κ α : Type} [DecidableEq κ]
    (ks : List κ) (t : List (κ × α)) (p : κ × α)
    (hp : p ∈ ks.foldl (fun acc m => dictPop acc m) t) : p ∈ t := by
  induction ks generalizing t with
  | nil => exact hp
  | cons k ks ih => exact mem_dictPop t k p (ih (dictPop t k) hp)

/-- C8: in every reachable scheduler state, each table key maps to an
entry whose `message_id` equals that key (and a `ScheduledDeletion`
carries only `message_id` and `delete_at`, by its type); both
`schedule_deletion` and the sweep preserve this. -/
theorem sched_table_key_invariant (t : List (Int × ScheduledDeletion))
    (h : SchedReach t) : ∀ p ∈ t, p.1 = p.2.message_id := by
  induction h with
  | init =>
    intro p hp
    cases hp
  | sched t0 m d now _ ih =>
    intro p hp
    rcases mem_dictInsert t0 m _ p hp with hp0 | rfl
    · exact ih p hp0
    · rfl
  | sweep t0 now delOk _ ih =>
    intro p hp
    have hp2 : p ∈ ((t0.filter
        (fun q => decide (q.2.delete_at ≤ now))).map (fun q => q.1)).foldl
        (fun acc m => dictPop acc m) t0 := hp
    exact ih p (mem_foldl_dictPop _ t0 p hp2)

/-- C8 witness: the invariant applied to the state reached by one
schedule call, at its single entry. -/
theorem sched_table_key_invariant_witness :
    ((42 : Int), ScheduledDeletion.mk 42 5).1 =
      ((42 : Int), ScheduledDeletion.mk 42 5).2.message_id :=
  sched_table_key_invariant _ (SchedReach.sched [] 42 5 0 SchedReach.init)
    ((42 : Int), ScheduledDeletion.mk 42 5) (by decide)

/-- C7 counterexample: the claim says every iteration sleeps 60 units
before sweeping, so no sweep precedes the first sleep; in the code the
loop body runs `_run_once()` first, so the very first action of the loop
is already a sweep, not the sleep. -/
theorem run_sleep_first_counterexample :
    (runActions 1).head? = some SchedAction.sweep ∧
    (runActions 1).head? ≠ some (SchedAction.sleep 60) := by
  exact ⟨rfl, by simp [runActions]⟩

/-- C7 amended: each iteration of `run()` first performs a sweep and
only then sleeps the fixed 60-unit interval — a sweep at every even
position of the trace, each followed by its 60-unit sleep. -/
theorem run_sweep_then_sleep (k : Nat) :
    (runActions k).length = 2 * k ∧
    ∀ i, i < k →
      (runActions k).get? (2 * i) = some SchedAction.sweep ∧
      (runActions k).get? (2 * i + 1) = some (SchedAction.sleep 60) := by
  induction k with
  | zero => exact ⟨rfl, fun i hi => absurd hi (Nat.not_lt_zero i)⟩
  | succ k ih =>
    refine ⟨?_, ?_⟩
    · have h1 := ih.1
      show (SchedAction.sweep :: SchedAction.sleep 60 ::
        runActions k).length = 2 * (k + 1)
      simp only [List.length_cons, h1]
      omega
    · intro i hi
      cases i with
      | zero => exact ⟨rfl, rfl⟩
      | succ j => exact ih.2 j (Nat.lt_of_succ_lt_succ hi)

/-- C7 witness (of the amended claim): in a two-iteration trace, the
second iteration's sweep sits right after the first sleep, followed by
its own sleep. -/
theorem run_sweep_then_sleep_witness :
    (runActions 2).get? 2 = some SchedAction.sweep ∧
    (runActions 2).get? 3 = some (SchedAction.sleep 60) :=
  (run_sweep_then_sleep 2).2 1 (by decide)

/-- C5 counterexample: the claim says every mutation of the task table by
`schedule` happens under the mutual-exclusion guard; `schedule_deletion`
performs its table write without acquiring the lock. -/
theorem schedule_mutates_outside_lock :
    (schedule_deletion_ops.all
      (fun s => !isTableOp s.kind || s.underLock)) = false := by
  rfl

/-- C5 amended: the sweep's read-snapshot and removals all happen under
the lock and its delete calls happen outside the lock, but
`schedule_deletion`'s table write does not acquire the lock (it is a
synchronous method with no suspension point, so under the cooperative
single-threaded scheduler it cannot interleave with a sweep's critical
sections). -/
theorem sweep_table_ops_locked (to_delete : List Int) :
    ((run_once_ops to_delete).all
      (fun s => !isTableOp s.kind || s.underLock)) = true ∧
    ((run_once_ops to_delete).all (fun s =>
      match s.kind with
      | LockedOpKind.deleteCall _ => !s.underLock
      | _ => true)) = true ∧
    (schedule_deletion_ops.all (fun s => !s.underLock)) = true := by
  refine ⟨?_, ?_, rfl⟩
  · rw [List.all_eq_true]
    intro s hs
    simp only [run_once_ops, List.mem_cons, List.mem_flatMap,
      List.mem_singleton] at hs
    rcases hs with rfl | ⟨m, _, rfl | rfl | h⟩
    · rfl
    · rfl
    · rfl
    · cases h
  · rw [List.all_eq_true]
    intro s hs
    simp only [run_once_ops, List.mem_cons, List.mem_flatMap,
      List.mem_singleton] at hs
    rcases hs with rfl | ⟨m, _, rfl | rfl | h⟩
    · rfl
    · rfl
    · rfl
    · cases h

/-- C10: when the sender has a pending entry and the normalized reply is
neither "send" nor "cancel", the pending slot is popped and the unknown
reply is not registered as a fresh pending entry: afterwards the sender
has no pending entry at all. -/
theorem anon_unknown_reply_clears_pending
    (target_stream target_topic : String) (delete_after_minutes : Int)
    (send_result : Option Int) (pending : List (Int × PendingAnon))
    (sender_id event_id : Int) (content : String) (p : PendingAnon)
    (hN : (pending.map Prod.fst).Nodup)
    (hp : assocFind? pending sender_id = some p)
    (h1 : pyLower (pyStrip content) ≠ "send")
    (h2 : pyLower (pyStrip content) ≠ "cancel") :
    assocFind? (anonHandle target_stream target_topic delete_after_minutes
      send_result pending sender_id event_id content).1 sender_id = none := by
  have step : (anonHandle target_stream target_topic delete_after_minutes
      send_result pending sender_id event_id content).1 =
      dictPop pending sender_id := by
    simp [anonHandle, hp, h1, h2]
  rw [step]
  exact assocFind?_dictPop_self pending sender_id hN

/-- C10 witness: sender 7 has a pending entry and replies "maybe"; the
pending table no longer has an entry for sender 7 afterwards. -/
theorem anon_unknown_reply_clears_pending_witness :
    assocFind? (anonHandle "anonymous" "general" 10080 none
      [(7, PendingAnon.mk 100 "hello")] 7 200 "maybe").1 7 = none :=
  anon_unknown_reply_clears_pending "anonymous" "general" 10080 none
    [(7, PendingAnon.mk 100 "hello")] 7 200 "maybe"
    (PendingAnon.mk 100 "hello") (by decide) rfl (by decide) (by decide)

/-- C9 witness: a minimal private message with no identity fields. -/
theorem parse_defaults_witness :
    ∃ ev, parse_message_event
        [("type", PyVal.pstr "message"),
         ("message", PyVal.pdict [("type", PyVal.pstr "private")])] =
      Except.ok (some ev) ∧
      ev.id = PyVal.pnone ∧ ev.sender_id = PyVal.pnone ∧
      ev.sender_email = PyVal.pnone ∧
      ev.is_me_message = PyVal.pbool false ∧
      ev.content = PyVal.pstr "" :=
  parse_defaults _ [("type", PyVal.pstr "private")] rfl rfl (Or.inl rfl)
    rfl rfl rfl rfl rfl
